import Mathlib

/-!
Shallow embedding of the AAUnpleasantnessModel repository
(`Src/Colouration.py` and `Src/Utils.py`).

Modelling conventions used throughout this file:

* Real-valued numpy/python arithmetic is embedded over `ℝ`.
* Operations that are mathematically undefined (logarithm of a
  non-positive number, square root of a negative number, division by
  zero in python scalar code) are modelled as `Except.error` values,
  following the error taxonomy of the specification (`DomainError`,
  `NumericError`, ...).  In every such situation the python program
  either raises immediately (`ZeroDivisionError`) or produces
  NaN values that make it raise before a score is returned
  (`ValueError: cannot convert float NaN to integer`).
* External collaborators that the spec treats as black boxes
  (`RT.estimateRT`, `Energy.getEDC`) and external library routines
  whose internals are irrelevant to the claims (`np.fft.rfft`,
  `scipy.signal.savgol_filter`, `scipy.signal.sosfilt`,
  `scipy.signal.butter`) are taken as function parameters; facts the
  libraries guarantee (e.g. length preservation of `savgol_filter`
  and `sosfilt`) appear as explicit hypotheses where needed.
* Python slices are translated index-exactly, including their
  clamping behaviour (`x[w:0:-1]`, `x[:-w-1:-1]`, `x[w:-w]`).
-/

/-- Error taxonomy of the specification: `domain` for invalid or
physically nonsensical parameters (also covers python's
`ZeroDivisionError`), `numeric` for undefined downstream arithmetic
(log of a non-positive peakedness argument), `config` for the
defensive band-type check, `value` for library `ValueError`s
(empty `argmin`, interpolation arity, broadcasting mismatch,
savgol window validation). -/
inductive Err where
  | domain
  | numeric
  | config
  | value
deriving DecidableEq

/-- Embedding of `np.linspace(a, b, n)` (with `endpoint=True`, the
default): `n` evenly spaced points from `a` to `b` inclusive.  For
`n = 1` numpy returns `[a]`, which the `ℝ`-convention `x / 0 = 0`
reproduces. -/
noncomputable def linspace (a b : ℝ) (n : ℕ) : List ℝ :=
  (List.range n).map (fun i : ℕ => a + (i : ℝ) * ((b - a) / ((n - 1 : ℕ) : ℝ)))

/-- Embedding of `np.logspace(a, b, n)` (base 10): `10` raised to each
point of `linspace a b n`. -/
noncomputable def logspace (a b : ℝ) (n : ℕ) : List ℝ :=
  (linspace a b n).map (fun e => (10 : ℝ) ^ e)

/-- Embedding of the evaluation of
`scipy.interpolate.interp1d(xs, ys, kind='linear', bounds_error=False,
fill_value=0.0)` at one point, for strictly increasing knots `xs`:
piecewise-linear interpolation, `0` outside the knot range. -/
noncomputable def interpLinear : List ℝ → List ℝ → ℝ → ℝ
  | x0 :: x1 :: xs, y0 :: y1 :: ys, t =>
      if t < x0 then 0
      else if t ≤ x1 then y0 + (t - x0) * (y1 - y0) / (x1 - x0)
      else interpLinear (x1 :: xs) (y1 :: ys) t
  | _, _, _ => 0

/-- Embedding of `Utils.linearToLog(magnitudes, sample_rate, f_min,
f_max)`.  Line-for-line: the linear frequency axis is
`np.linspace(0, nyquist, num_bins)`; the DC bin is dropped from the
axis and the magnitudes; the log axis is
`np.logspace(np.log10(f_min), np.log10(f_max), num_bins)` (sized by
the pre-removal bin count); the magnitudes are linearly interpolated
at each log-axis point with fill value `0`.  `np.log10` of a
non-positive bound is a `domain` error; `interp1d` requires at least
two data points (`ValueError` otherwise).  The python default
`f_max = None` branch is never exercised (every caller passes
`f_max`), so `f_max` is a plain argument here. -/
noncomputable def linearToLog (magnitudes : List ℝ) (sample_rate f_min f_max : ℝ) :
    Except Err (List ℝ × List ℝ) :=
  let num_bins := magnitudes.length
  let nyquist := sample_rate / 2
  let lin_freqs_full := (linspace 0 nyquist num_bins).drop 1
  let mags := magnitudes.drop 1
  if f_min ≤ 0 ∨ f_max ≤ 0 then .error .domain
  else
    let log_freqs_trunc := logspace (Real.logb 10 f_min) (Real.logb 10 f_max) num_bins
    if mags.length < 2 then .error .value
    else .ok (log_freqs_trunc.map (interpLinear lin_freqs_full mags), log_freqs_trunc)

/-- Embedding of python `int()` applied to a real scalar: truncation
toward zero. -/
noncomputable def pyInt (x : ℝ) : ℤ :=
  if x < 0 then -(⌊-x⌋) else ⌊x⌋

/-- Auxiliary loop for `findIndexOfClosest`: running index, best index
so far and best distance so far; a strict `<` keeps the first
occurrence of the minimum, as `np.argmin` does. -/
noncomputable def findIdxAux (target : ℝ) : List ℝ → ℕ → ℕ → ℝ → ℕ
  | [], _, bi, _ => bi
  | x :: xs, i, bi, bv =>
      if |x - target| < bv then findIdxAux target xs (i + 1) i |x - target|
      else findIdxAux target xs (i + 1) bi bv

/-- Embedding of `Utils.findIndexOfClosest(list, target)`:
`np.argmin(np.abs(list - target))`.  `np.argmin` raises on an empty
array; the pipeline guards emptiness before calling, so the empty
case here is junk. -/
noncomputable def findIndexOfClosest (l : List ℝ) (target : ℝ) : ℕ :=
  match l with
  | [] => 0
  | x :: xs => findIdxAux target xs 1 0 |x - target|

/-- Embedding of the python slice `x[window_size:0:-1]` used for
`mirrored_bins_start`: elements at indices `window_size, ..., 1`
(start clamped to `len x - 1`), i.e. the first interior window
reversed, excluding the boundary sample `x[0]`. -/
def mirrorStart {α : Type} (xs : List α) (w : ℕ) : List α :=
  ((xs.drop 1).take w).reverse

/-- Embedding of the python slice `x[:-window_size-1:-1]` used for
`mirrored_bins_end`: elements at indices `len x - 1, ..., len x - w`
(stop clamped), i.e. the last `w` samples reversed — the boundary
sample `x[len x - 1]` is included. -/
def mirrorEnd {α : Type} (xs : List α) (w : ℕ) : List α :=
  xs.reverse.take w

/-- Embedding of `np.concat([mirrored_bins_start, x, mirrored_bins_end])`
from `getColouration`. -/
def padForSmoothing {α : Type} (xs : List α) (w : ℕ) : List α :=
  mirrorStart xs w ++ xs ++ mirrorEnd xs w

/-- Embedding of the python slice `x[window_size:-window_size]` that
discards the padding after smoothing.  For `w = 0` python evaluates
`x[0:0] = []`; for `w > 0` it keeps indices `w ... len x - w - 1`. -/
def trimPad {α : Type} (xs : List α) (w : ℕ) : List α :=
  if w = 0 then [] else (xs.drop w).take (xs.length - 2 * w)

/-- Embedding of numpy element-wise array division `xs / ys` with
shape-(n,) operands: equal lengths divide pointwise, a length-1
operand broadcasts, anything else is a broadcasting `ValueError`. -/
noncomputable def numpyDiv (xs ys : List ℝ) : Except Err (List ℝ) :=
  if xs.length = ys.length then .ok (List.zipWith (· / ·) xs ys)
  else if ys.length = 1 then .ok (xs.map (· / ys.headI))
  else if xs.length = 1 then .ok (ys.map (xs.headI / ·))
  else .error .value

/-- Embedding of `np.mean`: sum divided by length. -/
noncomputable def npMean (xs : List ℝ) : ℝ :=
  xs.sum / xs.length

/-- Embedding of `np.std` (population standard deviation, `ddof=0`):
square root of the mean squared deviation from the mean. -/
noncomputable def npStd (xs : List ℝ) : ℝ :=
  Real.sqrt (npMean (xs.map (fun x => (x - npMean xs) ^ 2)))

/-- Embedding of `np.max` on a non-empty sequence (the pipeline guards
emptiness, on which `np.max` raises). -/
noncomputable def npMax : List ℝ → ℝ
  | [] => 0
  | x :: xs => xs.foldl max x

/-- Embedding of `range(rir_num_samples)[m15:m35]` from
`getColouration`: the absolute RIR sample indices selected by the EDC
windowing step (python slice clamping included). -/
def windowedIndices (n a b : ℕ) : List ℕ :=
  ((List.range n).drop a).take (b - a)

/-- Embedding of the decay-compensation list comprehension
`[rir[i] * np.exp(6.91 * i * sampling_period / rt) for i in idxs]`.
The index `i` is the absolute sample index, so the time offset
`i * sampling_period` is measured from the start of the RIR.  The
`rt = 0` division error is guarded by the caller (python raises
`ZeroDivisionError` exactly when the comprehension body runs). -/
noncomputable def compensateWindow (rir : List ℝ) (sampling_period rt : ℝ)
    (idxs : List ℕ) : List ℝ :=
  idxs.map (fun i => rir.getD i 0 * Real.exp (6.91 * i * sampling_period / rt))

/-- Embedding of
`num_octaves = np.log10(freqs[-1] / freqs[0]) / np.log10(2)` from
`getColouration`. -/
noncomputable def numOctaves (freqs : List ℝ) : ℝ :=
  Real.logb 10 (freqs.getLastD 0 / freqs.headI) / Real.logb 10 2

/-- Embedding of
`window_size = int((len(mag_spectrum_log_trunc) / num_octaves) * 0.15)`
from `getColouration`: python `int()` truncates toward zero. -/
noncomputable def windowInt (raw freqs : List ℝ) : ℤ :=
  pyInt ((raw.length / numOctaves freqs) * 0.15)

/-- Scoring tail of `getColouration`, shared shape for the statement of
the score formula: ratio statistics and the final score.  Guards:
`np.max` raises on an empty array; `np.log10` of a non-positive
peakedness argument is the spec's `NumericError`. -/
noncomputable def scoreOfRatio (mag_over_means : List ℝ) : Except Err ℝ :=
  if mag_over_means = [] then .error .value
  else
    if npMax mag_over_means - npMean mag_over_means - npStd mag_over_means ≤ 0 then
      .error .numeric
    else
      .ok (npStd mag_over_means +
        10 * Real.logb 10
          (npMax mag_over_means - npMean mag_over_means - npStd mag_over_means) / 10)

/-- Stages of `Colouration.getColouration` up to (and including) the
smoothing step, returning the raw log-frequency magnitude spectrum
paired with its smoothed counterpart.  The black-box collaborators
(`RT.estimateRT`, `Energy.getEDC`) and library transforms
(`np.abs(np.fft.rfft(·, n))` as `rfftMag`, `savgol_filter(·, w, 1)` as
`savgol_filter`) are parameters.  Every guard marks a point where the
python program raises (see the conventions at the top of the file). -/
noncomputable def pipelineRawSmoothed
    (estimateRT : List ℝ → ℝ → ℝ → ℝ → ℝ)
    (getEDC : List ℝ → ℝ → List ℝ × List ℝ)
    (rfftMag : List ℝ → ℕ → List ℝ)
    (savgol_filter : List ℝ → ℕ → List ℝ)
    (rir : List ℝ) (sample_rate : ℝ) : Except Err (List ℝ × List ℝ) :=
  let rir_num_samples := rir.length
  let rt := estimateRT rir sample_rate (-15) (-35)
  let edc_dB := (getEDC rir sample_rate).1
  if edc_dB = [] then .error .value
  else
    let minus_15_position_samples := findIndexOfClosest edc_dB (-15)
    let minus_35_position_samples := findIndexOfClosest edc_dB (-35)
    let idxs := windowedIndices rir_num_samples minus_15_position_samples
      minus_35_position_samples
    if sample_rate = 0 then .error .domain
    else if rt = 0 ∧ idxs ≠ [] then .error .domain
    else
      let rir_windowed_compensated := compensateWindow rir (1 / sample_rate) rt idxs
      let mag_spectrum := rfftMag rir_windowed_compensated (2 ^ 17)
      if rt / 5000 < 0 then .error .domain
      else
        let schroeder_frequency := 2000 * Real.sqrt (rt / 5000)
        (linearToLog mag_spectrum sample_rate schroeder_frequency 4000).bind (fun pr =>
          if pr.2.getLastD 0 / pr.2.headI ≤ 0 then .error .domain
          else if numOctaves pr.2 = 0 then .error .domain
          else if windowInt pr.1 pr.2 < 2 then .error .value
          else
            let window_size := (windowInt pr.1 pr.2).toNat
            let mag_spectrum_to_smooth := padForSmoothing pr.1 window_size
            if mag_spectrum_to_smooth.length < window_size then .error .value
            else
              .ok (pr.1, trimPad (savgol_filter mag_spectrum_to_smooth window_size)
                window_size))

/-- Embedding of `Colouration.getColouration(rir, sample_rate)` (the
plotting branch is presentation-only and omitted).  Identical to
`pipelineRawSmoothed` up to the smoothing step, then divides the raw
spectrum by the smoothed one (numpy broadcasting) and computes
`std_dev + peakedness / 10` with
`peakedness = 10 * np.log10(np.max(r) - np.mean(r) - std_dev)`. -/
noncomputable def getColouration
    (estimateRT : List ℝ → ℝ → ℝ → ℝ → ℝ)
    (getEDC : List ℝ → ℝ → List ℝ × List ℝ)
    (rfftMag : List ℝ → ℕ → List ℝ)
    (savgol_filter : List ℝ → ℕ → List ℝ)
    (rir : List ℝ) (sample_rate : ℝ) : Except Err ℝ :=
  let rir_num_samples := rir.length
  let rt := estimateRT rir sample_rate (-15) (-35)
  let edc_dB := (getEDC rir sample_rate).1
  if edc_dB = [] then .error .value
  else
    let minus_15_position_samples := findIndexOfClosest edc_dB (-15)
    let minus_35_position_samples := findIndexOfClosest edc_dB (-35)
    let idxs := windowedIndices rir_num_samples minus_15_position_samples
      minus_35_position_samples
    if sample_rate = 0 then .error .domain
    else if rt = 0 ∧ idxs ≠ [] then .error .domain
    else
      let rir_windowed_compensated := compensateWindow rir (1 / sample_rate) rt idxs
      let mag_spectrum := rfftMag rir_windowed_compensated (2 ^ 17)
      if rt / 5000 < 0 then .error .domain
      else
        let schroeder_frequency := 2000 * Real.sqrt (rt / 5000)
        (linearToLog mag_spectrum sample_rate schroeder_frequency 4000).bind (fun pr =>
          if pr.2.getLastD 0 / pr.2.headI ≤ 0 then .error .domain
          else if numOctaves pr.2 = 0 then .error .domain
          else if windowInt pr.1 pr.2 < 2 then .error .value
          else
            let window_size := (windowInt pr.1 pr.2).toNat
            let mag_spectrum_to_smooth := padForSmoothing pr.1 window_size
            if mag_spectrum_to_smooth.length < window_size then .error .value
            else
              (numpyDiv pr.1 (trimPad (savgol_filter mag_spectrum_to_smooth window_size)
                window_size)).bind scoreOfRatio)

/-- Specification of one
`scipy.signal.butter(order, cutoff, btype, fs, output='sos')` call
made by `getOctaveBandsFromIR`: the band type (low/band/high), the
Butterworth order and the cutoff frequencies passed to the designer
(`output='sos'` — the section-cascade form — is common to all three
calls; the designed filter object itself is external). -/
inductive SOSSpec where
  | lowpass (order : ℕ) (cutoff : ℝ)
  | bandpass (order : ℕ) (lower upper : ℝ)
  | highpass (order : ℕ) (cutoff : ℝ)

/-- Embedding of the band classification and `butter` call in the loop
of `Utils.getOctaveBandsFromIR`: `freq_idx == 0` is `'low'`,
`freq_idx == num_bands - 1` is `'high'`, everything else `'band'`
(the defensive `raise ValueError` for an unclassifiable band type is
unreachable by this construction); cutoffs are
`center_freq / factor` (lower) and `center_freq * factor` (upper);
the edge bands double the baseline `filter_order = 5`. -/
noncomputable def designSpec (num_bands : ℕ) (factor : ℝ) (freq_idx : ℕ)
    (center_freq : ℝ) : SOSSpec :=
  if freq_idx = 0 then .lowpass (2 * 5) (center_freq * factor)
  else if freq_idx = num_bands - 1 then .highpass (2 * 5) (center_freq / factor)
  else .bandpass 5 (center_freq / factor) (center_freq * factor)

/-- Embedding of the nominal centre tables of `getOctaveBandsFromIR`:
`1e3 * np.logspace(-6, 5, 12, base=2)` for octave resolution and
`1e3 * np.logspace(-6, 5, 34, base=2)` for third-octave, i.e.
`1000 * 2 ^ e` over `linspace (-6) 5 count`. -/
noncomputable def nominalCentres (octave_band_resolution : ℕ) : List ℝ :=
  if octave_band_resolution = 1 then
    (linspace (-6) 5 12).map (fun e => 1000 * (2 : ℝ) ^ e)
  else
    (linspace (-6) 5 34).map (fun e => 1000 * (2 : ℝ) ^ e)

/-- Embedding of the centre-to-crossover factor selection of
`getOctaveBandsFromIR`: `2 ** (1/2)` for octave resolution,
`2 ** (1/6)` for third-octave. -/
noncomputable def crossoverFactor (octave_band_resolution : ℕ) : ℝ :=
  if octave_band_resolution = 1 then (2 : ℝ) ^ ((1 : ℝ) / 2)
  else (2 : ℝ) ^ ((1 : ℝ) / 6)

/-- Embedding of the two boolean retention masks of
`getOctaveBandsFromIR`:
`octave_band_centres[octave_band_centres > 70]` followed by
`octave_band_centres[octave_band_centres < 0.5 * sample_rate]`. -/
noncomputable def decomposeCentres (octave_band_resolution : ℕ)
    (sample_rate : ℝ) : List ℝ :=
  ((nominalCentres octave_band_resolution).filter (fun c => 70 < c)).filter
    (fun c => c < 0.5 * sample_rate)

/-- Model of a 2-D numpy array: row count, column count and an entry
function (entries outside the shape are junk zeros). -/
structure NpArray2 where
  rows : ℕ
  cols : ℕ
  entry : ℕ → ℕ → ℝ

/-- Embedding of the numpy column assignment
`band_signals[:, freq_idx] = y`: the entries of column `j` at row
indices inside the array become the entries of `y`. -/
def setColumn (A : NpArray2) (j : ℕ) (y : List ℝ) : NpArray2 :=
  ⟨A.rows, A.cols, fun r c => if c = j ∧ r < A.rows then y.getD r 0 else A.entry r c⟩

/-- Embedding of the output-array construction in
`Utils.getOctaveBandsFromIR`: the array starts as
`np.zeros([len(rir), num_bands])` — one row per RIR sample, one column
per band — and each loop iteration assigns one column,
`band_signals[:, freq_idx] = sosfilt(sos, rir)`, where the application
of one designed band filter to the full RIR is the external parameter
`sosfilt`, keyed by the `butter` design specification. -/
noncomputable def bandSignalsArray (sosfilt : SOSSpec → List ℝ → List ℝ)
    (rir : List ℝ) (centres : List ℝ) (factor : ℝ) : NpArray2 :=
  (List.range centres.length).foldl
    (fun A j => setColumn A j
      (sosfilt (designSpec centres.length factor j (centres.getD j 0)) rir))
    ⟨rir.length, centres.length, fun _ _ => 0⟩

/-- Embedding of `Utils.getOctaveBandsFromIR(rir, sample_rate,
octave_band_resolution)`: retained centres, crossover factor, then the
filtering loop building the `(len(rir), num_bands)` array.  Numpy
raises a `ValueError` if an assigned column does not have exactly
`len(rir)` entries — the guard here (scipy's `sosfilt` always
preserves length, so real runs never hit it). -/
noncomputable def getOctaveBandsFromIR (sosfilt : SOSSpec → List ℝ → List ℝ)
    (rir : List ℝ) (sample_rate : ℝ) (octave_band_resolution : ℕ) :
    Except Err (NpArray2 × List ℝ) :=
  let octave_band_centres := decomposeCentres octave_band_resolution sample_rate
  let num_bands := octave_band_centres.length
  let factor := crossoverFactor octave_band_resolution
  if (List.range num_bands).all (fun j =>
      (sosfilt (designSpec num_bands factor j
        (octave_band_centres.getD j 0)) rir).length = rir.length) then
    .ok (bandSignalsArray sosfilt rir octave_band_centres factor,
      octave_band_centres)
  else .error .value

/-- Concrete remapped output used to exercise `linearToLog` on the
magnitude sequence `[0, 0, 0]` with sample rate `2`, `f_min = 1` and
`f_max = 100`. -/
noncomputable def sampleRemap : List ℝ × List ℝ :=
  ((logspace (Real.logb 10 1) (Real.logb 10 100) 3).map
    (interpLinear ((linspace 0 (2 / 2) 3).drop 1) (([0, 0, 0] : List ℝ).drop 1)),
   logspace (Real.logb 10 1) (Real.logb 10 100) 3)

/-- Helper: an `Except.bind` on an `error` is that `error`. -/
theorem except_error_bind {ε α β : Type} (e : ε) (f : α → Except ε β) :
    (Except.error e : Except ε α).bind f = .error e := rfl

/-- Helper: an `Except.bind` on an `ok` applies the continuation. -/
theorem except_ok_bind {ε α β : Type} (x : α) (f : α → Except ε β) :
    (Except.ok x : Except ε α).bind f = f x := rfl

/-- Helper: `Except.bind` distributes over an if-then-else scrutinee. -/
theorem except_ite_bind {ε α β : Type} (c : Prop) [Decidable c]
    (a b : Except ε α) (f : α → Except ε β) :
    (ite c a b).bind f = ite c (a.bind f) (b.bind f) := by
  by_cases h : c <;> simp [h]

/-- Helper: associativity of `Except.bind`. -/
theorem except_bind_bind {ε α β γ : Type} (L : Except ε α)
    (g : α → Except ε β) (h : β → Except ε γ) :
    (L.bind g).bind h = L.bind (fun x => (g x).bind h) := by
  cases L <;> rfl

/-- C1: for every RIR and sample rate for which `getColouration`
completes, the returned score equals `σ + peakedness / 10` where the
ratio sequence is the element-wise quotient of the raw log-frequency
magnitude spectrum by its smoothed counterpart, `σ` is the (population)
standard deviation of that ratio sequence and
`peakedness = 10 * log10(max(ratio) - mean(ratio) - σ)`.  Stated as an
unconditional factorisation: `getColouration` is the raw/smoothed
pipeline followed by the element-wise division and exactly that score
formula (`scoreOfRatio`). -/
theorem getColouration_score_formula
    (estimateRT : List ℝ → ℝ → ℝ → ℝ → ℝ)
    (getEDC : List ℝ → ℝ → List ℝ × List ℝ)
    (rfftMag : List ℝ → ℕ → List ℝ)
    (savgol_filter : List ℝ → ℕ → List ℝ)
    (rir : List ℝ) (sample_rate : ℝ) :
    getColouration estimateRT getEDC rfftMag savgol_filter rir sample_rate =
      (pipelineRawSmoothed estimateRT getEDC rfftMag savgol_filter rir
        sample_rate).bind
        (fun p => (numpyDiv p.1 p.2).bind scoreOfRatio) := by
  simp only [getColouration, pipelineRawSmoothed, except_ite_bind,
    except_error_bind, except_bind_bind, except_ok_bind]

/-- Helper: the `j`-th selected index of the EDC window is the absolute
RIR sample index `a + j`. -/
theorem windowedIndices_get (n a b j : ℕ)
    (hj : j < (windowedIndices n a b).length) :
    (windowedIndices n a b)[j]? = some (a + j) := by
  unfold windowedIndices at *
  rw [List.length_take, List.length_drop, List.length_range] at hj
  have hj1 : j < b - a := lt_of_lt_of_le hj (min_le_left _ _)
  have hj2 : j < n - a := lt_of_lt_of_le hj (min_le_right _ _)
  rw [List.getElem?_take, if_pos hj1, List.getElem?_drop,
    List.getElem?_range (by omega)]

/-- C2: for every positive reverberation time and every RIR sample
selected by the EDC windowing step, the decay-compensation stage
multiplies that sample by `exp(6.91 * t / rt)` where
`t = (a + j) * sampling_period` is the time offset of the sample's
absolute index `a + j` from the start of the RIR (not `j`, its offset
inside the selected window). -/
theorem decay_compensation_uses_absolute_time
    (rir : List ℝ) (sample_rate rt : ℝ) (a b j : ℕ) (hrt : 0 < rt)
    (hj : j < (windowedIndices rir.length a b).length) :
    (compensateWindow rir (1 / sample_rate) rt (windowedIndices rir.length a b))[j]? =
      some (rir.getD (a + j) 0 *
        Real.exp (6.91 * ((a + j : ℕ) * (1 / sample_rate)) / rt)) := by
  unfold compensateWindow
  rw [List.getElem?_map, windowedIndices_get _ _ _ _ hj]
  simp only [Option.map_some']
  congr 2
  ring_nf

/-- Witness for C2 at a concrete input: RIR `[5, 7]`, window `[1, 2)`,
`rt = 1`, unit sample rate; the selected sample `7` (absolute index 1)
is scaled by `exp(6.91 * 1)`. -/
theorem decay_compensation_uses_absolute_time_witness :
    (0 : ℝ) < 1 ∧ 0 < (windowedIndices 2 1 2).length ∧
    (compensateWindow [5, 7] (1 / 1) 1 (windowedIndices 2 1 2))[0]? =
      some (([5, 7] : List ℝ).getD (1 + 0) 0 *
        Real.exp (6.91 * ((1 + 0 : ℕ) * (1 / (1 : ℝ))) / 1)) :=
  ⟨by norm_num, by decide,
    decay_compensation_uses_absolute_time [5, 7] 1 1 1 2 0 (by norm_num) (by decide)⟩

/-- C3 counterexample: the end padding produced by the slice
`x[:-window_size-1:-1]` starts with the boundary sample itself.  On
`[1, 2, 3, 4]` with window `2` the code produces `[4, 3]`, not the
boundary-excluding reflection `[3, 2]` the claim describes. -/
theorem mirrorEnd_includes_boundary_cex :
    mirrorEnd ([1, 2, 3, 4] : List ℕ) 2 = [4, 3] ∧
    mirrorEnd ([1, 2, 3, 4] : List ℕ) 2 ≠
      (([1, 2, 3, 4] : List ℕ).dropLast.reverse.take 2) := by
  constructor
  · rfl
  · decide

/-- C3 (amended): the log-magnitude sequence is mirror-padded at both
ends by exactly the window length `w`; the start padding reflects
samples `1 .. w` (excluding the boundary sample `xs[0]`), while the end
padding reflects the last `w` samples including the boundary sample
(`(mirrorEnd xs w)[0] = xs[n-1]`); the padded sequence has length
`n + 2w` with the original aligned at offset `w`; and discarding `w`
entries at both ends of any same-length smoothed sequence recovers a
sequence of the original length, index-aligned with the original. -/
theorem padForSmoothing_layout (xs : List ℝ) (w : ℕ)
    (hw : 1 ≤ w) (hn : w + 1 ≤ xs.length) :
    (mirrorStart xs w).length = w ∧
    (mirrorEnd xs w).length = w ∧
    (padForSmoothing xs w).length = xs.length + 2 * w ∧
    (∀ i, i < w → (mirrorStart xs w)[i]? = xs[w - i]?) ∧
    (∀ i, i < w → (mirrorEnd xs w)[i]? = xs[xs.length - 1 - i]?) ∧
    (∀ i, i < xs.length → (padForSmoothing xs w)[w + i]? = xs[i]?) ∧
    (∀ ys : List ℝ, ys.length = (padForSmoothing xs w).length →
      (trimPad ys w).length = xs.length ∧
      ∀ i, i < xs.length → (trimPad ys w)[i]? = ys[w + i]?) := by
  have hlen1 : (mirrorStart xs w).length = w := by
    simp only [mirrorStart, List.length_reverse, List.length_take, List.length_drop]
    omega
  have hlen2 : (mirrorEnd xs w).length = w := by
    simp only [mirrorEnd, List.length_take, List.length_reverse]
    omega
  have hlen3 : (padForSmoothing xs w).length = xs.length + 2 * w := by
    simp only [padForSmoothing, List.length_append, hlen1, hlen2]
    omega
  refine ⟨hlen1, hlen2, hlen3, ?_, ?_, ?_, ?_⟩
  · intro i hi
    have h1 : i < ((xs.drop 1).take w).length := by
      simp only [List.length_take, List.length_drop]; omega
    rw [mirrorStart, List.getElem?_reverse h1]
    rw [List.length_take, List.length_drop] at h1 ⊢
    rw [List.getElem?_take, if_pos (by omega), List.getElem?_drop]
    congr 1
    omega
  · intro i hi
    have h1 : i < xs.reverse.length := by
      rw [List.length_reverse]; omega
    rw [mirrorEnd, List.getElem?_take, if_pos hi, List.getElem?_reverse (by
      rw [List.length_reverse] at h1; exact h1)]
  · intro i hi
    rw [padForSmoothing, List.getElem?_append_left (by
        simp only [List.length_append, hlen1]; omega),
      List.getElem?_append_right (by rw [hlen1]; omega), hlen1]
    congr 1
    omega
  · intro ys hys
    rw [hlen3] at hys
    constructor
    · simp only [trimPad, if_neg (by omega : ¬ w = 0), List.length_take,
        List.length_drop, hys]
      omega
    · intro i hi
      rw [trimPad, if_neg (by omega : ¬ w = 0), List.getElem?_take,
        if_pos (by omega), List.getElem?_drop]

/-- Witness for C3 (amended) at `xs = [10, 20, 30]`, `w = 1`: the
padding and trimming layout facts hold concretely. -/
theorem padForSmoothing_layout_witness :
    1 ≤ 1 ∧ 1 + 1 ≤ ([10, 20, 30] : List ℝ).length ∧
    ((mirrorStart ([10, 20, 30] : List ℝ) 1).length = 1 ∧
    (mirrorEnd ([10, 20, 30] : List ℝ) 1).length = 1 ∧
    (padForSmoothing ([10, 20, 30] : List ℝ) 1).length = ([10, 20, 30] : List ℝ).length + 2 * 1 ∧
    (∀ i, i < 1 → (mirrorStart ([10, 20, 30] : List ℝ) 1)[i]? = ([10, 20, 30] : List ℝ)[1 - i]?) ∧
    (∀ i, i < 1 → (mirrorEnd ([10, 20, 30] : List ℝ) 1)[i]? =
      ([10, 20, 30] : List ℝ)[([10, 20, 30] : List ℝ).length - 1 - i]?) ∧
    (∀ i, i < ([10, 20, 30] : List ℝ).length →
      (padForSmoothing ([10, 20, 30] : List ℝ) 1)[1 + i]? = ([10, 20, 30] : List ℝ)[i]?) ∧
    (∀ ys : List ℝ, ys.length = (padForSmoothing ([10, 20, 30] : List ℝ) 1).length →
      (trimPad ys 1).length = ([10, 20, 30] : List ℝ).length ∧
      ∀ i, i < ([10, 20, 30] : List ℝ).length → (trimPad ys 1)[i]? = ys[1 + i]?)) :=
  ⟨le_refl 1, by norm_num,
    padForSmoothing_layout [10, 20, 30] 1 (le_refl 1) (by norm_num)⟩

/-- Helper: length of `linspace`. -/
theorem linspace_length (a b : ℝ) (n : ℕ) : (linspace a b n).length = n := by
  simp [linspace]

/-- Helper: length of `logspace`. -/
theorem logspace_length (a b : ℝ) (n : ℕ) : (logspace a b n).length = n := by
  simp [logspace, linspace]

/-- Helper: elements of `linspace`. -/
theorem linspace_getElem (a b : ℝ) (n i : ℕ) (hi : i < n) :
    (linspace a b n)[i]? = some (a + (i : ℝ) * ((b - a) / ((n - 1 : ℕ) : ℝ))) := by
  unfold linspace
  rw [List.getElem?_map, List.getElem?_range hi, Option.map_some']

/-- Helper: elements of `logspace`. -/
theorem logspace_getElem (a b : ℝ) (n i : ℕ) (hi : i < n) :
    (logspace a b n)[i]? =
      some ((10 : ℝ) ^ (a + (i : ℝ) * ((b - a) / ((n - 1 : ℕ) : ℝ)))) := by
  unfold logspace
  rw [List.getElem?_map, linspace_getElem a b n i hi, Option.map_some']

/-- Helper: the first point of `linspace a b n` is `a`. -/
theorem linspace_headI (a b : ℝ) (n : ℕ) (hn : 1 ≤ n) :
    (linspace a b n).headI = a := by
  match n with
  | (m + 1) => simp [linspace, List.range_succ_eq_map]

/-- Helper: the first point of `logspace a b n` is `10 ^ a`. -/
theorem logspace_headI (a b : ℝ) (n : ℕ) (hn : 1 ≤ n) :
    (logspace a b n).headI = (10 : ℝ) ^ a := by
  match n with
  | (m + 1) => simp [logspace, linspace, List.range_succ_eq_map]

/-- Helper: the last point of `linspace a b n` is `b` when `2 ≤ n`. -/
theorem linspace_getLastD (a b : ℝ) (n : ℕ) (hn : 2 ≤ n) :
    (linspace a b n).getLastD 0 = b := by
  rw [List.getLastD_eq_getLast?, List.getLast?_eq_getElem?, linspace_length,
    linspace_getElem a b n (n - 1) (by omega)]
  have hne : ((n - 1 : ℕ) : ℝ) ≠ 0 := by
    have h : (0 : ℕ) < n - 1 := by omega
    exact_mod_cast Nat.pos_iff_ne_zero.mp h
  simp only [Option.getD_some]
  rw [mul_div_cancel₀ _ hne]
  ring

/-- Helper: the last point of `logspace a b n` is `10 ^ b` when `2 ≤ n`. -/
theorem logspace_getLastD (a b : ℝ) (n : ℕ) (hn : 2 ≤ n) :
    (logspace a b n).getLastD 0 = (10 : ℝ) ^ b := by
  rw [List.getLastD_eq_getLast?, List.getLast?_eq_getElem?, logspace_length,
    logspace_getElem a b n (n - 1) (by omega)]
  have hne : ((n - 1 : ℕ) : ℝ) ≠ 0 := by
    have h : (0 : ℕ) < n - 1 := by omega
    exact_mod_cast Nat.pos_iff_ne_zero.mp h
  simp only [Option.getD_some]
  rw [mul_div_cancel₀ _ hne]
  congr 1
  ring

/-- Helper: `logspace a b n` is strictly increasing when `a < b`. -/
theorem logspace_pairwise (a b : ℝ) (n : ℕ) (hab : a < b) :
    (logspace a b n).Pairwise (· < ·) := by
  match n with
  | 0 => simp [logspace, linspace]
  | 1 => simp [logspace, linspace]
  | (m + 2) =>
    unfold logspace linspace
    rw [List.map_map, List.pairwise_map]
    refine (List.pairwise_lt_range (m + 2)).imp ?_
    intro i j hij
    simp only [Function.comp_apply]
    rw [Real.rpow_lt_rpow_left_iff (by norm_num : (1 : ℝ) < 10)]
    have hstep : 0 < (b - a) / ((m + 2 - 1 : ℕ) : ℝ) := by
      apply div_pos (by linarith)
      have h : (0 : ℕ) < m + 2 - 1 := by omega
      exact_mod_cast h
    have hij2 : (i : ℝ) < (j : ℝ) := by exact_mod_cast hij
    have := mul_lt_mul_of_pos_right hij2 hstep
    linarith

/-- Helper: evaluation of `linearToLog` on the success path
(positive bounds, at least three magnitude bins). -/
theorem linearToLog_eq_ok (mags : List ℝ) (sr fmin fmax : ℝ)
    (h1 : 0 < fmin) (h2 : 0 < fmax) (h3 : 3 ≤ mags.length) :
    linearToLog mags sr fmin fmax = .ok
      ((logspace (Real.logb 10 fmin) (Real.logb 10 fmax) mags.length).map
        (interpLinear ((linspace 0 (sr / 2) mags.length).drop 1) (mags.drop 1)),
       logspace (Real.logb 10 fmin) (Real.logb 10 fmax) mags.length) := by
  have g1 : ¬ (fmin ≤ 0 ∨ fmax ≤ 0) := by push_neg; constructor <;> linarith
  have g2 : ¬ ((mags.drop 1).length < 2) := by rw [List.length_drop]; omega
  simp only [linearToLog]
  rw [if_neg g1, if_neg g2]

/-- Helper: inversion of a successful `linearToLog` call. -/
theorem linearToLog_ok_inv (mags : List ℝ) (sr fmin fmax : ℝ)
    (p : List ℝ × List ℝ) (h : linearToLog mags sr fmin fmax = .ok p) :
    0 < fmin ∧ 0 < fmax ∧ 3 ≤ mags.length ∧
    p.1 = (logspace (Real.logb 10 fmin) (Real.logb 10 fmax) mags.length).map
      (interpLinear ((linspace 0 (sr / 2) mags.length).drop 1) (mags.drop 1)) ∧
    p.2 = logspace (Real.logb 10 fmin) (Real.logb 10 fmax) mags.length := by
  by_cases g1 : fmin ≤ 0 ∨ fmax ≤ 0
  · simp only [linearToLog] at h
    rw [if_pos g1] at h
    exact absurd h (by simp)
  · by_cases g2 : (mags.drop 1).length < 2
    · simp only [linearToLog] at h
      rw [if_neg g1, if_pos g2] at h
      exact absurd h (by simp)
    · simp only [linearToLog] at h
      rw [if_neg g1, if_neg g2] at h
      simp only [Except.ok.injEq] at h
      push_neg at g1
      rw [List.length_drop] at g2
      subst h
      exact ⟨by linarith [g1.1], by linarith [g1.2], by omega, rfl, rfl⟩

/-- C7: `remapLinearToLog` fails with `DomainError` whenever
`fMin ≤ 0` (the `np.log10` on the lower bound is undefined there; see
the conventions at the top of the file), for every magnitude sequence,
sample rate and `fMax`. -/
theorem linearToLog_fmin_nonpos_domain (mags : List ℝ) (sr fmin fmax : ℝ)
    (h : fmin ≤ 0) : linearToLog mags sr fmin fmax = .error .domain := by
  simp only [linearToLog]
  rw [if_pos (Or.inl h)]

/-- Witness for C7 at `fMin = 0`. -/
theorem linearToLog_fmin_nonpos_domain_witness :
    (0 : ℝ) ≤ 0 ∧ linearToLog [1] 2 0 5 = .error .domain :=
  ⟨le_refl 0, linearToLog_fmin_nonpos_domain [1] 2 0 5 (le_refl 0)⟩

/-- Helper: the octave count of the code,
`log10(fHigh/fLow) / log10(2)`, equals `log2(fHigh/fLow)`. -/
theorem numOctaves_eq_logb_two (freqs : List ℝ) :
    numOctaves freqs = Real.logb 2 (freqs.getLastD 0 / freqs.headI) := by
  unfold numOctaves Real.logb
  have h10 : Real.log 10 ≠ 0 := ne_of_gt (Real.log_pos (by norm_num))
  have h2 : Real.log 2 ≠ 0 := ne_of_gt (Real.log_pos (by norm_num))
  field_simp

/-- C4 (amended): the adaptive smoothing window length is
`int(0.15 * binCount / octaveCount)` — python `int()`, i.e. truncation
toward zero, not rounding — where `binCount` is the length of the
remapped log-magnitude sequence and
`octaveCount = log2(fHigh/fLow)` is computed from the first and last
remapped frequencies. -/
theorem smoothing_window_truncates (raw freqs : List ℝ) :
    windowInt raw freqs =
      pyInt (0.15 * raw.length /
        Real.logb 2 (freqs.getLastD 0 / freqs.headI)) := by
  unfold windowInt
  rw [numOctaves_eq_logb_two]
  congr 1
  ring

/-- C4 counterexample: on the remapped output of 17 magnitude bins
between 2000 Hz and 4000 Hz (exactly one octave) the code computes a
window of `int((17 / 1) * 0.15) = int(2.55) = 2`, while the claimed
formula `round(0.15 * 17 / log2(4000/2000)) = round(2.55)` gives `3`. -/
theorem smoothing_window_not_rounded_cex :
    (linearToLog (List.replicate 17 (0 : ℝ)) 8000 2000 4000).map
      (fun p => windowInt p.1 p.2) = .ok 2 ∧
    round ((0.15 : ℝ) * 17 / Real.logb 2 (4000 / 2000)) = 3 ∧
    (2 : ℤ) ≠ 3 := by
  have hok := linearToLog_eq_ok (List.replicate 17 (0 : ℝ)) 8000 2000 4000
    (by norm_num) (by norm_num) (by simp)
  have hlen : (List.replicate 17 (0 : ℝ)).length = 17 := by simp
  rw [hlen] at hok
  refine ⟨?_, ?_, by norm_num⟩
  · rw [hok]
    simp only [Except.map]
    congr 1
    rw [smoothing_window_truncates]
    have hhead : (logspace (Real.logb 10 2000) (Real.logb 10 4000) 17).headI
        = (2000 : ℝ) := by
      rw [logspace_headI _ _ _ (by norm_num),
        Real.rpow_logb (by norm_num) (by norm_num) (by norm_num)]
    have hlast : (logspace (Real.logb 10 2000) (Real.logb 10 4000) 17).getLastD 0
        = (4000 : ℝ) := by
      rw [logspace_getLastD _ _ _ (by norm_num),
        Real.rpow_logb (by norm_num) (by norm_num) (by norm_num)]
    simp only [hhead, hlast, List.length_map, logspace_length]
    have hratio : (4000 : ℝ) / 2000 = 2 := by norm_num
    rw [hratio, Real.logb_self_eq_one (by norm_num)]
    unfold pyInt
    rw [if_neg (by norm_num)]
    have : (0.15 : ℝ) * (17 : ℕ) / 1 = 2.55 := by norm_num
    rw [this]
    have h1 : ((2 : ℤ) : ℝ) ≤ 2.55 := by norm_num
    have h2 : (2.55 : ℝ) < (2 : ℤ) + 1 := by norm_num
    exact Int.floor_eq_iff.mpr ⟨h1, by push_cast; norm_num⟩
  · rw [show (4000 : ℝ) / 2000 = 2 by norm_num,
      Real.logb_self_eq_one (by norm_num), round_eq]
    have : (0.15 : ℝ) * 17 / 1 + 1 / 2 = 3.05 := by norm_num
    rw [this]
    have h1 : ((3 : ℤ) : ℝ) ≤ 3.05 := by norm_num
    exact Int.floor_eq_iff.mpr ⟨h1, by push_cast; norm_num⟩

/-- C6: whenever `remapLinearToLog` returns, with bounds
`0 < fMin < fMax`, both returned sequences have the length of the
(pre-DC-removal) input magnitude sequence, the returned frequency axis
is strictly increasing, its first element is exactly `fMin` and its
last element exactly `fMax`. -/
theorem linearToLog_axis_spec (mags : List ℝ) (sr fmin fmax : ℝ)
    (p : List ℝ × List ℝ) (hmin : 0 < fmin) (hlt : fmin < fmax)
    (h : linearToLog mags sr fmin fmax = .ok p) :
    p.1.length = mags.length ∧ p.2.length = mags.length ∧
    p.2.Pairwise (· < ·) ∧ p.2.headI = fmin ∧ p.2.getLastD 0 = fmax := by
  obtain ⟨h1, h2, h3, hp1, hp2⟩ := linearToLog_ok_inv mags sr fmin fmax p h
  refine ⟨?_, ?_, ?_, ?_, ?_⟩
  · rw [hp1, List.length_map, logspace_length]
  · rw [hp2, logspace_length]
  · rw [hp2]
    exact logspace_pairwise _ _ _
      (Real.logb_lt_logb (by norm_num) hmin hlt)
  · rw [hp2, logspace_headI _ _ _ (by omega),
      Real.rpow_logb (by norm_num) (by norm_num) hmin]
  · rw [hp2, logspace_getLastD _ _ _ (by omega),
      Real.rpow_logb (by norm_num) (by norm_num) (lt_trans hmin hlt)]

/-- Witness for C6 on the magnitude sequence `[0, 0, 0]` with sample
rate `2`, `f_min = 1`, `f_max = 100`. -/
theorem linearToLog_axis_spec_witness :
    ((0 : ℝ) < 1 ∧ (1 : ℝ) < 100) ∧
    linearToLog [0, 0, 0] 2 1 100 = .ok sampleRemap ∧
    (sampleRemap.1.length = ([0, 0, 0] : List ℝ).length ∧
     sampleRemap.2.length = ([0, 0, 0] : List ℝ).length ∧
     sampleRemap.2.Pairwise (· < ·) ∧
     sampleRemap.2.headI = 1 ∧ sampleRemap.2.getLastD 0 = 100) := by
  have hok : linearToLog [0, 0, 0] 2 1 100 = .ok sampleRemap := by
    have h := linearToLog_eq_ok [0, 0, 0] 2 1 100 (by norm_num) (by norm_num)
      (by simp)
    simpa [sampleRemap] using h
  exact ⟨⟨by norm_num, by norm_num⟩, hok,
    linearToLog_axis_spec [0, 0, 0] 2 1 100 sampleRemap (by norm_num)
      (by norm_num) hok⟩

/-- C5: whenever the RT estimator returns `rt ≤ 0` (and the EDC
collaborator honours its contract of returning a non-empty decay
curve), `getColouration` fails with `DomainError` — via the
`ZeroDivisionError` in the decay compensation for `rt = 0` with a
non-empty window, via `sqrt` of a negative Schroeder argument for
`rt < 0`, and via `log10` of the zero Schroeder frequency for `rt = 0`
with an empty window — never returning a numeric score. -/
theorem rt_nonpos_raises_domain
    (estimateRT : List ℝ → ℝ → ℝ → ℝ → ℝ)
    (getEDC : List ℝ → ℝ → List ℝ × List ℝ)
    (rfftMag : List ℝ → ℕ → List ℝ)
    (savgol_filter : List ℝ → ℕ → List ℝ)
    (rir : List ℝ) (sample_rate : ℝ)
    (hedc : (getEDC rir sample_rate).1 ≠ [])
    (hrt : estimateRT rir sample_rate (-15) (-35) ≤ 0) :
    getColouration estimateRT getEDC rfftMag savgol_filter rir sample_rate =
      .error .domain := by
  simp only [getColouration]
  rw [if_neg hedc]
  by_cases hsr : sample_rate = 0
  · rw [if_pos hsr]
  · rw [if_neg hsr]
    rcases lt_or_eq_of_le hrt with hlt | heq
    · rw [if_neg (by
        intro hc
        exact absurd hc.1 (ne_of_lt hlt)),
        if_pos (div_neg_of_neg_of_pos hlt (by norm_num))]
    · by_cases hidx : windowedIndices rir.length
        (findIndexOfClosest (getEDC rir sample_rate).1 (-15))
        (findIndexOfClosest (getEDC rir sample_rate).1 (-35)) = []
      · rw [if_neg (by
          intro hc
          exact hc.2 hidx)]
        rw [if_neg (by rw [heq]; norm_num)]
        have hs : (2000 : ℝ) *
            Real.sqrt (estimateRT rir sample_rate (-15) (-35) / 5000) ≤ 0 := by
          rw [heq]
          norm_num
        rw [linearToLog_fmin_nonpos_domain _ _ _ _ hs, except_error_bind]
      · rw [if_pos ⟨heq, hidx⟩]

/-- Witness for C5: an RT stub returning `0`, a one-sample RIR and a
one-point EDC force the `DomainError`. -/
theorem rt_nonpos_raises_domain_witness :
    ([(-15 : ℝ)] : List ℝ) ≠ [] ∧ (0 : ℝ) ≤ 0 ∧
    getColouration (fun _ _ _ _ => 0) (fun _ _ => ([-15], [0]))
      (fun _ _ => []) (fun xs _ => xs) [1] 1 = .error .domain :=
  ⟨by simp, le_refl 0,
    rt_nonpos_raises_domain _ _ _ _ [1] 1 (by simp) (le_refl 0)⟩

/-- Helper: the nominal centre table `1000 * 2 ^ e` over `linspace` is
strictly increasing. -/
theorem geomspace_pairwise (a b : ℝ) (n : ℕ) (hab : a < b) :
    ((linspace a b n).map (fun e => 1000 * (2 : ℝ) ^ e)).Pairwise (· < ·) := by
  match n with
  | 0 => simp [linspace]
  | 1 => simp [linspace]
  | (m + 2) =>
    unfold linspace
    rw [List.map_map, List.pairwise_map]
    refine (List.pairwise_lt_range (m + 2)).imp ?_
    intro i j hij
    simp only [Function.comp_apply]
    have hbase : (2 : ℝ) ^ (a + (i : ℝ) * ((b - a) / ((m + 2 - 1 : ℕ) : ℝ)))
        < (2 : ℝ) ^ (a + (j : ℝ) * ((b - a) / ((m + 2 - 1 : ℕ) : ℝ))) := by
      rw [Real.rpow_lt_rpow_left_iff (by norm_num : (1 : ℝ) < 2)]
      have hstep : 0 < (b - a) / ((m + 2 - 1 : ℕ) : ℝ) := by
        apply div_pos (by linarith)
        have h : (0 : ℕ) < m + 2 - 1 := by omega
        exact_mod_cast h
      have hij2 : (i : ℝ) < (j : ℝ) := by exact_mod_cast hij
      have := mul_lt_mul_of_pos_right hij2 hstep
      linarith
    linarith

/-- Helper: every nominal centre table is strictly increasing. -/
theorem nominalCentres_pairwise (octave_band_resolution : ℕ) :
    (nominalCentres octave_band_resolution).Pairwise (· < ·) := by
  unfold nominalCentres
  split_ifs
  · exact geomspace_pairwise (-6) 5 12 (by norm_num)
  · exact geomspace_pairwise (-6) 5 34 (by norm_num)

/-- Helper: the largest nominal octave-band centre is
`1000 * 2 ^ 5 = 32000`. -/
theorem nominalCentres_octave_last : (nominalCentres 1).getLastD 0 = 32000 := by
  unfold nominalCentres
  rw [if_pos rfl, List.getLastD_eq_getLast?, List.getLast?_eq_getElem?,
    List.length_map, linspace_length, List.getElem?_map,
    linspace_getElem (-6) 5 12 11 (by norm_num)]
  simp only [Option.map_some', Option.getD_some]
  rw [show (-6 : ℝ) + ((11 : ℕ) : ℝ) * ((5 - -6) / (((12 - 1 : ℕ) : ℕ) : ℝ))
      = ((5 : ℕ) : ℝ) by push_cast; norm_num]
  rw [Real.rpow_natCast]
  norm_num

/-- Helper: the smallest nominal octave-band centre is
`1000 * 2 ^ (-6) = 15.625`. -/
theorem nominalCentres_octave_head : (nominalCentres 1).headI = 15.625 := by
  unfold nominalCentres
  rw [if_pos rfl]
  rw [show (12 : ℕ) = 11 + 1 by norm_num]
  simp only [linspace, List.range_succ_eq_map, List.map_cons, List.headI]
  rw [show (-6 : ℝ) + ((0 : ℕ) : ℝ) * ((5 - -6) / (((11 + 1 - 1 : ℕ) : ℕ) : ℝ))
      = ((-6 : ℤ) : ℝ) by push_cast; norm_num]
  rw [Real.rpow_intCast]
  norm_num

/-- C8 counterexample: the nominal octave centre table tops out at
`1000 * 2 ^ 5 = 32000` Hz — more than half an octave above the claimed
"~16 kHz" (it exceeds `16000 * sqrt 2`). -/
theorem nominal_top_centre_not_16k_cex :
    (nominalCentres 1).getLastD 0 = 32000 ∧
    ¬ ((nominalCentres 1).getLastD 0 ≤ 16000 * Real.sqrt 2) := by
  refine ⟨nominalCentres_octave_last, ?_⟩
  rw [nominalCentres_octave_last]
  intro hle
  have h2 : Real.sqrt 2 < 1.5 := by
    rw [show (1.5 : ℝ) = Real.sqrt (1.5 ^ 2) from
      (Real.sqrt_sq (by norm_num)).symm]
    exact Real.sqrt_lt_sqrt (by norm_num) (by norm_num)
  nlinarith

/-- C8 (amended): for octave resolution `decompose` derives 12 nominal
centres at octave spacing from `1000 * 2 ^ (-6) = 15.625` Hz up to
`1000 * 2 ^ 5 = 32000` Hz (34 nominal centres for third-octave
resolution), each successive nominal centre doubling the previous one;
a centre is retained exactly when it exceeds 70 Hz and lies strictly
below half the sample rate, and the returned centres are exactly the
retained nominal centres, in increasing order. -/
theorem octave_band_centres_spec (sample_rate : ℝ) :
    (nominalCentres 1).length = 12 ∧
    (nominalCentres 3).length = 34 ∧
    (nominalCentres 1).headI = 15.625 ∧
    (nominalCentres 1).getLastD 0 = 32000 ∧
    (∀ i, i + 1 < 12 → (nominalCentres 1)[i + 1]? =
      ((nominalCentres 1)[i]?).map (fun c => 2 * c)) ∧
    (∀ c, c ∈ decomposeCentres 1 sample_rate ↔
      c ∈ nominalCentres 1 ∧ 70 < c ∧ c < 0.5 * sample_rate) ∧
    (decomposeCentres 1 sample_rate).Pairwise (· < ·) := by
  refine ⟨?_, ?_, nominalCentres_octave_head, nominalCentres_octave_last,
    ?_, ?_, ?_⟩
  · simp [nominalCentres, linspace]
  · simp [nominalCentres, linspace]
  · intro i hi
    unfold nominalCentres
    rw [if_pos rfl, List.getElem?_map, List.getElem?_map,
      linspace_getElem (-6) 5 12 (i + 1) (by omega),
      linspace_getElem (-6) 5 12 i (by omega)]
    simp only [Option.map_some']
    congr 1
    rw [show (-6 : ℝ) + ((i + 1 : ℕ) : ℝ) * ((5 - -6) / (((12 - 1 : ℕ) : ℕ) : ℝ))
        = ((-6 : ℝ) + ((i : ℕ) : ℝ) * ((5 - -6) / (((12 - 1 : ℕ) : ℕ) : ℝ))) + 1 by
      push_cast; norm_num; ring]
    rw [Real.rpow_add (by norm_num : (0 : ℝ) < 2), Real.rpow_one]
    ring
  · intro c
    simp only [decomposeCentres, List.mem_filter, decide_eq_true_eq]
    tauto
  · exact ((nominalCentres_pairwise 1).sublist
      ((List.filter_sublist _).trans (List.filter_sublist _)))

/-- Helper: the nominal octave centre table, element by element. -/
theorem nominalCentres_octave_explicit :
    nominalCentres 1 = [15.625, 31.25, 62.5, 125, 250, 500, 1000, 2000,
      4000, 8000, 16000, 32000] := by
  have hlin : linspace (-6) 5 12 =
      ([-6, -5, -4, -3, -2, -1, 0, 1, 2, 3, 4, 5] : List ℤ).map
        (fun k : ℤ => (k : ℝ)) := by
    unfold linspace
    norm_num [List.range_succ]
  unfold nominalCentres
  rw [if_pos rfl, hlin, List.map_map]
  simp only [Function.comp_def, Real.rpow_intCast]
  norm_num

/-- Helper: at sample rate 300 Hz only the 125 Hz nominal centre
survives both retention masks. -/
theorem decomposeCentres_300 : decomposeCentres 1 300 = [125] := by
  unfold decomposeCentres
  rw [nominalCentres_octave_explicit]
  norm_num [List.filter]

/-- C9 counterexample: at sample rate 300 Hz exactly one centre
(125 Hz) is retained; it is simultaneously the first and the last
centre, and the code classifies it `'low'`, so the last centre gets a
low-pass filter — not the high-pass filter the claim assigns to the
last centre. -/
theorem single_band_not_highpass_cex :
    decomposeCentres 1 300 = [125] ∧
    designSpec 1 (crossoverFactor 1) 0 125 =
      .lowpass 10 (125 * crossoverFactor 1) ∧
    designSpec 1 (crossoverFactor 1) 0 125 ≠
      .highpass 10 (125 / crossoverFactor 1) := by
  refine ⟨decomposeCentres_300, ?_, ?_⟩
  · unfold designSpec
    rw [if_pos rfl]
  · unfold designSpec
    rw [if_pos rfl]
    intro h
    exact SOSSpec.noConfusion h

/-- C9 (amended): when at least two centres are retained, the first
centre is assigned a low-pass filter with upper cutoff
`centre * crossover-factor`, the last centre a high-pass filter with
lower cutoff `centre / crossover-factor`, and every other centre a
band-pass filter with cutoffs `centre / factor` and `centre * factor`;
the two edge bands use a Butterworth of double the baseline order 5
(order 10) while interior band-pass bands use order 5.  (With a single
retained centre, the code assigns the low-pass filter.) -/
theorem band_classification (num_bands : ℕ) (factor c : ℝ) (i : ℕ)
    (hk : 2 ≤ num_bands) (hi : i < num_bands) :
    (i = 0 → designSpec num_bands factor i c = .lowpass 10 (c * factor)) ∧
    (i = num_bands - 1 →
      designSpec num_bands factor i c = .highpass 10 (c / factor)) ∧
    (i ≠ 0 → i ≠ num_bands - 1 →
      designSpec num_bands factor i c =
        .bandpass 5 (c / factor) (c * factor)) := by
  refine ⟨?_, ?_, ?_⟩
  · intro h
    subst h
    unfold designSpec
    rw [if_pos rfl]
  · intro h
    subst h
    unfold designSpec
    rw [if_neg (by omega), if_pos rfl]
  · intro h1 h2
    unfold designSpec
    rw [if_neg h1, if_neg h2]

/-- Witness for C9 (amended) at three retained bands, factor `2`,
centre `7`, interior index `1`. -/
theorem band_classification_witness :
    2 ≤ 3 ∧ 1 < 3 ∧
    (((1 : ℕ) = 0 → designSpec 3 2 1 7 = .lowpass 10 (7 * 2)) ∧
     ((1 : ℕ) = 3 - 1 → designSpec 3 2 1 7 = .highpass 10 (7 / 2)) ∧
     ((1 : ℕ) ≠ 0 → (1 : ℕ) ≠ 3 - 1 →
       designSpec 3 2 1 7 = .bandpass 5 (7 / 2) (7 * 2))) :=
  ⟨by norm_num, by norm_num,
    band_classification 3 2 7 1 (by norm_num) (by norm_num)⟩

/-- Helper: the column-assignment fold does not change the shape. -/
theorem foldl_setColumn_rows_cols (js : List ℕ) (f : ℕ → List ℝ)
    (A : NpArray2) :
    (js.foldl (fun B j => setColumn B j (f j)) A).rows = A.rows ∧
    (js.foldl (fun B j => setColumn B j (f j)) A).cols = A.cols := by
  induction js generalizing A with
  | nil => exact ⟨rfl, rfl⟩
  | cons j js ih =>
    simp only [List.foldl_cons]
    exact (ih (setColumn A j (f j)))

/-- Helper: the entry of the column-assignment fold: column `c` holds
the assigned signal for `c` when `c` was assigned (the signal depends
only on `c`, so repeats are harmless), anything else keeps the initial
array's entry. -/
theorem foldl_setColumn_entry (js : List ℕ) (f : ℕ → List ℝ)
    (A : NpArray2) (r c : ℕ) :
    (js.foldl (fun B j => setColumn B j (f j)) A).entry r c =
      if c ∈ js ∧ r < A.rows then (f c).getD r 0 else A.entry r c := by
  induction js generalizing A with
  | nil => simp
  | cons j js ih =>
    simp only [List.foldl_cons]
    rw [ih (setColumn A j (f j))]
    simp only [setColumn, List.mem_cons]
    by_cases hr : r < A.rows
    · by_cases hjs : c ∈ js
      · rw [if_pos ⟨hjs, hr⟩, if_pos ⟨Or.inr hjs, hr⟩]
      · rw [if_neg (by tauto)]
        by_cases hcj : c = j
        · rw [if_pos ⟨hcj, hr⟩, if_pos ⟨Or.inl hcj, hr⟩]
          rw [hcj]
        · rw [if_neg (by tauto), if_neg (by tauto)]
    · rw [if_neg (by tauto), if_neg (by tauto), if_neg (by tauto)]

/-- C10: with a length-preserving `sosfilt` (scipy's guarantee),
`getOctaveBandsFromIR` returns a freshly built 2-D array of shape
`(len rir, num_bands)` — one row per RIR sample and one column per
band, not `(bands, samples)` — in which column `j` is the full input
RIR passed through the filter designed for centre `j`, index-aligned
with the returned centre list. -/
theorem filter_bank_shape_alignment (sosfilt : SOSSpec → List ℝ → List ℝ)
    (rir : List ℝ) (sample_rate : ℝ) (octave_band_resolution : ℕ)
    (hlen : ∀ s x, (sosfilt s x).length = x.length) :
    getOctaveBandsFromIR sosfilt rir sample_rate octave_band_resolution =
      .ok (bandSignalsArray sosfilt rir
            (decomposeCentres octave_band_resolution sample_rate)
            (crossoverFactor octave_band_resolution),
          decomposeCentres octave_band_resolution sample_rate) ∧
    (bandSignalsArray sosfilt rir
      (decomposeCentres octave_band_resolution sample_rate)
      (crossoverFactor octave_band_resolution)).rows = rir.length ∧
    (bandSignalsArray sosfilt rir
      (decomposeCentres octave_band_resolution sample_rate)
      (crossoverFactor octave_band_resolution)).cols =
        (decomposeCentres octave_band_resolution sample_rate).length ∧
    (∀ i j, i < rir.length →
      j < (decomposeCentres octave_band_resolution sample_rate).length →
      (bandSignalsArray sosfilt rir
        (decomposeCentres octave_band_resolution sample_rate)
        (crossoverFactor octave_band_resolution)).entry i j =
        (sosfilt (designSpec
            (decomposeCentres octave_band_resolution sample_rate).length
            (crossoverFactor octave_band_resolution) j
            ((decomposeCentres octave_band_resolution sample_rate).getD j 0))
          rir).getD i 0) := by
  refine ⟨?_, ?_, ?_, ?_⟩
  · simp only [getOctaveBandsFromIR]
    rw [if_pos]
    rw [List.all_eq_true]
    intro j hj
    simp [hlen]
  · exact (foldl_setColumn_rows_cols _ _ _).1
  · exact (foldl_setColumn_rows_cols _ _ _).2
  · intro i j hi hj
    unfold bandSignalsArray
    rw [foldl_setColumn_entry]
    rw [if_pos ⟨by simpa using hj, hi⟩]

/-- Witness for C10 with the identity filter on a two-sample RIR at
sample rate 300 Hz (octave resolution). -/
theorem filter_bank_shape_alignment_witness :
    (∀ (s : SOSSpec) (x : List ℝ),
      ((fun (_ : SOSSpec) (x : List ℝ) => x) s x).length = x.length) ∧
    (getOctaveBandsFromIR (fun _ x => x) [1, 2] 300 1 =
      .ok (bandSignalsArray (fun _ x => x) [1, 2]
            (decomposeCentres 1 300) (crossoverFactor 1),
          decomposeCentres 1 300) ∧
    (bandSignalsArray (fun _ x => x) [1, 2] (decomposeCentres 1 300)
      (crossoverFactor 1)).rows = ([1, 2] : List ℝ).length ∧
    (bandSignalsArray (fun _ x => x) [1, 2] (decomposeCentres 1 300)
      (crossoverFactor 1)).cols = (decomposeCentres 1 300).length ∧
    (∀ i j, i < ([1, 2] : List ℝ).length →
      j < (decomposeCentres 1 300).length →
      (bandSignalsArray (fun _ x => x) [1, 2] (decomposeCentres 1 300)
        (crossoverFactor 1)).entry i j =
        ((fun (_ : SOSSpec) (x : List ℝ) => x) (designSpec
            (decomposeCentres 1 300).length (crossoverFactor 1) j
            ((decomposeCentres 1 300).getD j 0)) [1, 2]).getD i 0)) :=
  ⟨fun _ _ => rfl,
    filter_bank_shape_alignment (fun _ x => x) [1, 2] 300 1 (fun _ _ => rfl)⟩
